import Mathlib

/-!
Verification of the build-orchestration core of `setup.py`:
Python string/path primitives, the header-installer walk, the
CMake build orchestrator, the build-directory naming helper and
the release-version computation, embedded shallowly.
-/

namespace Setup

/-! ### Python string and path primitives (posix semantics) -/

/-- Model of `os.path.join(a, b)` (posixpath, two arguments): an absolute
second component discards the first; otherwise a single separator is
inserted unless `a` is empty or already ends with one. -/
def pyJoin (a b : String) : String :=
  if List.isPrefixOf ['/'] b.data then b
  else if a = "" then b
  else if List.isSuffixOf ['/'] a.data then a ++ b
  else a ++ "/" ++ b

/-- Model of Python `s.endswith(suffix)`. -/
def pyEndsWith (s suffix : String) : Bool :=
  List.isSuffixOf suffix.data s.data

/-- Fuel-driven worker of [[pyReplaceEmpty]]: removes every non-overlapping
occurrence of `old` from the character list, scanning left to right and
continuing after each removed occurrence, as Python `str.replace` does. -/
def removeOccFuel (old : List Char) : Nat → List Char → List Char
  | 0, s => s
  | _ + 1, [] => []
  | fuel + 1, c :: cs =>
      if List.isPrefixOf old (c :: cs) ∧ old ≠ [] then
        removeOccFuel old fuel ((c :: cs).drop old.length)
      else
        c :: removeOccFuel old fuel cs

/-- Model of `s.replace(old, '')` as used in `InstallHeaders.run`
(`path.replace(header, '')`): every non-overlapping occurrence of `old` is
deleted.  For `old = ''` Python returns `s` unchanged when the replacement
is empty, which the fuel worker also does. -/
def pyReplaceEmpty (s old : String) : String :=
  String.mk (removeOccFuel old.data s.data.length s.data)

/-- Model of `os.path.dirname(p)` (posixpath): everything before the final
separator, with trailing separators stripped unless the head is all
separators. -/
def pyDirname (p : String) : String :=
  let cs := p.data
  let base := cs.reverse.takeWhile (fun c => c ≠ '/')
  let head := cs.take (cs.length - base.length)
  if head ≠ [] ∧ head.any (fun c => c ≠ '/') then
    String.mk (head.reverse.dropWhile (fun c => c = '/')).reverse
  else
    String.mk head

/-- Splits a character list at every character satisfying `p`, keeping empty
segments, as Python `str.split(sep)` does for a one-character `sep`. -/
def splitOnPred (p : Char → Bool) : List Char → List (List Char)
  | [] => [[]]
  | c :: cs =>
      if p c then [] :: splitOnPred p cs
      else
        match splitOnPred p cs with
        | [] => [[c]]
        | t :: ts => (c :: t) :: ts

/-- Model of Python `s.split(' ')`: split at every single space character,
empty segments kept (they are filtered at the call site in `setup.py`). -/
def pySplitSpace (s : String) : List String :=
  (splitOnPred (fun c => c = ' ') s.data).map String.mk

/-- Model of Python `s.lstrip(chars)`: remove leading characters belonging
to `chars`. -/
def pyLstrip (s : String) (chars : List Char) : String :=
  String.mk (s.data.dropWhile (fun c => chars.contains c))

/-! ### Filesystem trees and `os.walk`

A directory's listing is a list of entries; an entry is a regular file
with its byte content (modelled as a `String`) or a subdirectory with its
own listing.  `os.walk(top)` is modelled by an enumeration of
`(full path, file name, content)` triples: for each directory it first
yields the regular files of that directory, then recurses into each
subdirectory in listing order, exactly as the default top-down `os.walk`
stream is consumed by `InstallHeaders.run`.  Paths are built with
`os.path.join` from `top` downwards.  The recursion is bounded by an
explicit `fuel` parameter (the walk stops descending when the fuel is
exhausted); any fuel at least the number of entries of the tree yields
the complete enumeration, and every theorem below holds for every fuel. -/

inductive Entry where
  | file (name : String) (content : String) : Entry
  | dir (name : String) (children : List Entry) : Entry

/-- The `(os.path.join(dirpath, name), name, content)` triples of the
regular files directly inside a directory whose walk path is `dirpath`. -/
def filesOf (dirpath : String) : List Entry → List (String × String × String)
  | [] => []
  | Entry.file n c :: es => (pyJoin dirpath n, n, c) :: filesOf dirpath es
  | Entry.dir _ _ :: es => filesOf dirpath es

/-- Recursive descent of the walk: for every subdirectory in listing
order, enumerate its files and then descend further. -/
def walkDirsFuel (dirpath : String) : Nat → List Entry → List (String × String × String)
  | 0, _ => []
  | _ + 1, [] => []
  | fuel + 1, Entry.file _ _ :: es => walkDirsFuel dirpath fuel es
  | fuel + 1, Entry.dir n cs :: es =>
      (filesOf (pyJoin dirpath n) cs ++ walkDirsFuel (pyJoin dirpath n) fuel cs)
        ++ walkDirsFuel dirpath fuel es

/-- The stream of `(path, filename, content)` triples that the
`for dirpath, dirnames, filenames in os.walk(header)` loop iterates over. -/
def osWalkFiles (fuel : Nat) (top : String) (entries : List Entry) :
    List (String × String × String) :=
  filesOf top entries ++ walkDirsFuel top fuel entries

/-! ### The header installer (`InstallHeaders.run`) -/

/-- The copies performed for one header root: the walked files whose name
ends in `'.h'`, each taken to
`os.path.join(install_dir, path.replace(header, ''))` together with its
(verbatim) content.  This is the body of the per-root loop of
`InstallHeaders.run`. -/
def headerCopies (fuel : Nat) (installDir root : String) (tree : List Entry) :
    List (String × String × String) :=
  (osWalkFiles fuel root tree).filterMap (fun x =>
    if pyEndsWith x.2.1 ".h" then
      some (x.1, pyJoin installDir (pyReplaceEmpty x.1 root), x.2.2)
    else none)

/-- Observable outcome of one `InstallHeaders.run()` invocation:
`dirsMade` records every `self.mkpath` call, `copies` every
`self.copy_file(path, install_target)` call as a
`(source, target, content)` triple in execution order, and `outfiles` the
accumulated `self.outfiles` list of destination paths. -/
structure InstallResult where
  dirsMade : List String
  copies : List (String × String × String)
  outfiles : List String
  deriving DecidableEq

/-- Model of `InstallHeaders.run`: if the declared header list is falsy
(empty) it returns at once; otherwise it makes the install root, and for
each header root in order copies every walked `'.h'` file to
`install_dir/path.replace(header, '')`, making the destination's parent
directory first and appending the destination to `outfiles`. -/
def installRun (fuel : Nat) (installDir : String) (headers : List (String × List Entry)) :
    InstallResult :=
  if headers.isEmpty then ⟨[], [], []⟩
  else
    let copies := (headers.map (fun h => headerCopies fuel installDir h.1 h.2)).flatten
    { dirsMade := installDir :: copies.map (fun c => pyDirname c.2.1)
      copies := copies
      outfiles := copies.map (fun c => c.2.1) }

/-- Content found at `target` after the run: the last copy to `target`
wins, since each `copy_file` overwrites the destination. -/
def finalContent (r : InstallResult) (target : String) : Option String :=
  (r.copies.reverse.find? (fun c => c.2.1 = target)).map (fun c => c.2.2)

/-! ### The CMake build orchestrator (`CMakeBuildExt`, `CMAKE_EXE`) -/

/-- The two kinds of extension descriptor `setup.py` registers: a
`CMakeExtension` (name plus absolute source directory) dispatched to the
CMake path of `CMakeBuildExt.build_extension`, or an ordinary `Extension`
handled by the standard `build_ext` path. -/
inductive ExtDescriptor where
  | cmake (name : String) (sourcedir : String) : ExtDescriptor
  | std (name : String) : ExtDescriptor
  deriving DecidableEq

/-- The `cmake_args` list built by `CMakeBuildExt.build_extension`: the
executable, the source directory, the output-directory and build-type
defines, then the tokens of `CMAKE_COMMON_VARIABLES` split on single
spaces with empty tokens dropped (`[x for x in ....split(' ') if x]`). -/
def cmakeArgs (cmakeExe sourcedir outputDir : String) (debug : Bool)
    (commonVars : String) : List String :=
  [cmakeExe, sourcedir,
   "-DCMAKE_LIBRARY_OUTPUT_DIRECTORY=" ++ outputDir,
   "-DCMAKE_BUILD_TYPE=" ++ (if debug then "Debug" else "Release")]
    ++ (pySplitSpace commonVars).filter (fun x => x ≠ "")

/-- Ambient state `build_extension` reads: the exit code each spawned
child process would return (keyed by its argument vector), the directory
portion of `get_ext_fullpath(name)` for each extension name, and the
value of `CMAKE_COMMON_VARIABLES` (`''` when unset). -/
structure BuildWorld where
  exit : List String → Nat
  outputDirOf : String → String
  commonVars : String

/-- Model of `CMakeBuildExt.build_extension` for one descriptor: returns
the argument vectors of the child processes actually spawned, in order,
and `some code` if a `subprocess.check_call` raised
`CalledProcessError(code)` (non-zero exit), else `none`.  For a
`CMakeExtension` the configure step runs first and a non-zero exit stops
before `make`; the ordinary path delegates to the standard
`build_ext.build_extension`, abstracted as one spawned compile step. -/
def buildExtension (cmakeExe : String) (debug : Bool) (w : BuildWorld) :
    ExtDescriptor → List (List String) × Option Nat
  | ExtDescriptor.cmake name sourcedir =>
      let args := cmakeArgs cmakeExe sourcedir (w.outputDirOf name) debug w.commonVars
      if w.exit args ≠ 0 then ([args], some (w.exit args))
      else
        let margs := ["make", "-j", name]
        if w.exit margs ≠ 0 then ([args, margs], some (w.exit margs))
        else ([args, margs], none)
  | ExtDescriptor.std name => ([["<build_ext>", name]], none)

/-- The driving loop over the registered descriptors, in registration
order: a raised `CalledProcessError` propagates and stops the run, so
processing continues only while every step exits zero. -/
def runAll (cmakeExe : String) (debug : Bool) (w : BuildWorld) :
    List ExtDescriptor → List (List String) × Option Nat
  | [] => ([], none)
  | e :: es =>
      let r := buildExtension cmakeExe debug w e
      match r.2 with
      | some code => (r.1, some code)
      | none =>
          let rest := runAll cmakeExe debug w es
          (r.1 ++ rest.1, rest.2)

/-- Model of `CMAKE_EXE = os.environ.get('CMAKE_EXE', shutil.which('cmake'))`
followed by the `if not CMAKE_EXE` truthiness test: the environment value
when the variable is set, else the path-search result; `None` or the
empty string resolve to nothing. -/
def resolveCMakeExe (envOverride whichCmake : Option String) : Option String :=
  match (match envOverride with
         | some s => some s
         | none => whichCmake) with
  | some s => if s = "" then none else some s
  | none => none

/-- Outcome of the whole script run. -/
inductive ScriptResult where
  | missingTool (exitCode : Nat) : ScriptResult
  | finished (err : Option Nat) : ScriptResult
  deriving DecidableEq

/-- Model of the script's top level: resolve the cmake executable first;
if it is unresolvable print the missing-tool message and `sys.exit(1)`
before any descriptor is processed (so no child process is ever spawned);
otherwise process every registered descriptor in order.  The second
component is the list of argument vectors of all spawned child
processes. -/
def scriptMain (envOverride whichCmake : Option String) (debug : Bool)
    (w : BuildWorld) (exts : List ExtDescriptor) :
    ScriptResult × List (List String) :=
  match resolveCMakeExe envOverride whichCmake with
  | none => (ScriptResult.missingTool 1, [])
  | some exe =>
      let r := runAll exe debug w exts
      (ScriptResult.finished r.2, r.1)

/-! ### The naming helper and the release version -/

/-- `distutils_dir_name`: `os.path.join('build',
"{dirname}.{platform}-{version[0]}.{version[1]}")`. -/
def distutils_dir_name (dname : String) (platform : String) (version : Nat × Nat) :
    String :=
  pyJoin "build"
    (dname ++ "." ++ platform ++ "-" ++ toString version.1 ++ "." ++ toString version.2)

/-- `version = os.environ.get('GIT_DESCRIBE_TAG', '0.0.0.dev0').lstrip('v')`. -/
def releaseVersion (gitDescribeTag : Option String) : String :=
  pyLstrip (gitDescribeTag.getD "0.0.0.dev0") ['v']

/-! ### Definitions taken from the specification's words (for refinement
claims), to be compared with the source-derived definitions above -/

/-- Spec wording for C1: the relative path obtained by stripping the root
from the front of the file's path. -/
def relSpec (path root : String) : String :=
  String.mk (path.data.drop root.data.length)

/-- Spec wording for C5: the generator arguments with the extra-arguments
tail split on whitespace (any whitespace character), empty tokens
dropped. -/
def specArgsWhitespace (cmakeExe sourcedir outputDir : String) (debug : Bool)
    (commonVars : String) : List String :=
  [cmakeExe, sourcedir,
   "-DCMAKE_LIBRARY_OUTPUT_DIRECTORY=" ++ outputDir,
   "-DCMAKE_BUILD_TYPE=" ++ (if debug then "Debug" else "Release")]
    ++ ((splitOnPred (fun c => c.isWhitespace) commonVars.data).map String.mk).filter
        (fun x => x ≠ "")

/-- Spec wording for C8: the tag with one leading `'v'` character removed
if present, otherwise unchanged. -/
def stripOneLeadingV (t : String) : String :=
  if List.isPrefixOf ['v'] t.data then String.mk (t.data.drop 1) else t

/-- Amended wording for C8: the tag with every leading `'v'` character
removed. -/
def stripAllLeadingV (t : String) : String :=
  String.mk (t.data.dropWhile (fun c => c = 'v'))

/-- Amended wording for C5: the extra-arguments tail split at every single
space character, empty tokens dropped. -/
def spaceTokens (commonVars : String) : List String :=
  (pySplitSpace commonVars).filter (fun x => x ≠ "")

/-! ### General list lemmas used by several proofs -/

theorem eq_singleton_of_mem_of_length_le {α : Type} {l : List α} {x : α}
    (hx : x ∈ l) (hl : l.length ≤ 1) : l = [x] := by
  cases l with
  | nil => cases hx
  | cons a t =>
      cases t with
      | nil =>
          rcases List.mem_singleton.mp hx with h
          rw [h]
      | cons b u => simp at hl

theorem find?_eq_of_filter_eq {α : Type} (p : α → Bool) :
    ∀ (l : List α) (x : α), l.filter p = [x] → l.find? p = some x := by
  intro l x h
  induction l with
  | nil => simp at h
  | cons a t ih =>
      by_cases hp : p a = true
      · rw [List.filter_cons_of_pos hp] at h
        have hax : a = x := by
          have h0 := congrArg List.head? h
          simpa using h0
        subst hax
        simp [List.find?, hp]
      · rw [List.filter_cons_of_neg (by simpa using hp)] at h
        have hp' : p a = false := by simpa using hp
        simp only [List.find?, hp']
        exact ih h

theorem find?_append_of_find?_eq {α : Type} (p : α → Bool) {l1 : List α} {x : α}
    (h : l1.find? p = some x) (l2 : List α) : (l1 ++ l2).find? p = some x := by
  induction l1 with
  | nil => simp at h
  | cons a t ih =>
      cases hp : p a with
      | true =>
          simp only [List.find?, hp] at h
          simp only [List.cons_append, List.find?, hp]
          exact h
      | false =>
          simp only [List.find?, hp] at h
          simp only [List.cons_append, List.find?, hp]
          exact ih h

theorem filter_length_map_fst {β : Type} [DecidableEq β] (f : α → β) :
    ∀ (l : List α) (t : β),
      ((l.map f).filter (fun s => s = t)).length = (l.filter (fun x => f x = t)).length := by
  intro l t
  induction l with
  | nil => rfl
  | cons a u ih =>
      by_cases h : f a = t
      · simp only [List.map_cons, List.filter_cons, h]
        simp [ih]
      · simp only [List.map_cons, List.filter_cons, h]
        simp [h, ih]

/-! ### C7: empty header list is a no-op -/

/-- C7: if the declared header-root list is empty, `InstallHeaders.run()`
performs zero filesystem writes — no `mkpath` call and no `copy_file`
call — and returns successfully with an empty `outfiles` report. -/
theorem installRun_no_headers_noop (fuel : Nat) (installDir : String) :
    installRun fuel installDir [] = ⟨[], [], []⟩ := rfl

/-! ### C9: generator arguments are deterministic in the descriptor -/

/-- C9: two `build_extension` calls with identical descriptor data and
identical debug flag build identical `cmake_args` lists except for the
environment-sourced tail; the four-element head never depends on the
environment value, and equal environment values give fully equal lists. -/
theorem cmakeArgs_deterministic (exe src out : String) (debug : Bool)
    (cv1 cv2 : String) :
    (cmakeArgs exe src out debug cv1).take 4 = (cmakeArgs exe src out debug cv2).take 4
      ∧ (cv1 = cv2 → cmakeArgs exe src out debug cv1 = cmakeArgs exe src out debug cv2) := by
  constructor
  · simp [cmakeArgs]
  · intro h
    rw [h]

theorem cmakeArgs_deterministic_witness :
    (cmakeArgs "cmake" "cpp" "out" false "-DX=1").take 4
        = (cmakeArgs "cmake" "cpp" "out" false "-DX=1").take 4
      ∧ cmakeArgs "cmake" "cpp" "out" false "-DX=1"
        = cmakeArgs "cmake" "cpp" "out" false "-DX=1" :=
  ⟨(cmakeArgs_deterministic "cmake" "cpp" "out" false "-DX=1" "-DX=1").1,
   (cmakeArgs_deterministic "cmake" "cpp" "out" false "-DX=1" "-DX=1").2 rfl⟩

/-! ### C3: unresolvable generator executable aborts before anything runs -/

/-- C3: if neither the `CMAKE_EXE` override nor the path search yields an
executable, the script exits with the missing-tool failure (exit code 1),
spawns zero child processes, and the outcome does not depend on the
descriptor list, i.e. no descriptor is processed. -/
theorem scriptMain_missing_tool (envOverride whichCmake : Option String)
    (debug : Bool) (w : BuildWorld) (exts : List ExtDescriptor)
    (h1 : envOverride = none ∨ envOverride = some "") (h2 : whichCmake = none) :
    scriptMain envOverride whichCmake debug w exts = (ScriptResult.missingTool 1, [])
      ∧ scriptMain envOverride whichCmake debug w exts
        = scriptMain envOverride whichCmake debug w [] := by
  subst h2
  rcases h1 with h | h <;> subst h <;> exact ⟨rfl, rfl⟩

theorem scriptMain_missing_tool_witness :
    scriptMain none none false ⟨fun _ => 0, fun _ => "out", ""⟩
        [ExtDescriptor.cmake "rmm" "cpp", ExtDescriptor.cmake "cudf" "cpp"]
      = (ScriptResult.missingTool 1, []) :=
  (scriptMain_missing_tool none none false ⟨fun _ => 0, fun _ => "out", ""⟩
    [ExtDescriptor.cmake "rmm" "cpp", ExtDescriptor.cmake "cudf" "cpp"]
    (Or.inl rfl) rfl).1

/-! ### C2: a failing configure or build step aborts the whole run -/

/-- C2: if every descriptor before `e` succeeds and one of `e`'s child
steps (configure or build) exits non-zero, the run over
`pre ++ e :: post` equals the run over `pre ++ [e]` — so no descriptor
after `e`, native or standard, is ever attempted — and the run ends with
that failure. -/
theorem runAll_aborts_on_failure (cmakeExe : String) (debug : Bool) (w : BuildWorld)
    (pre : List ExtDescriptor) (e : ExtDescriptor) (post : List ExtDescriptor)
    (hpre : (runAll cmakeExe debug w pre).2 = none)
    (hfail : (buildExtension cmakeExe debug w e).2.isSome = true) :
    runAll cmakeExe debug w (pre ++ e :: post) = runAll cmakeExe debug w (pre ++ [e])
      ∧ (runAll cmakeExe debug w (pre ++ e :: post)).2
        = (buildExtension cmakeExe debug w e).2 := by
  rcases Option.isSome_iff_exists.mp hfail with ⟨code, hcode⟩
  induction pre with
  | nil =>
      simp only [List.nil_append]
      constructor
      · show runAll cmakeExe debug w (e :: post) = runAll cmakeExe debug w (e :: [])
        simp only [runAll, hcode]
      · simp only [runAll, hcode]
  | cons d ds ih =>
      have hd : (buildExtension cmakeExe debug w d).2 = none := by
        cases hopt : (buildExtension cmakeExe debug w d).2 with
        | none => rfl
        | some cd =>
            exfalso
            simp only [runAll, hopt] at hpre
            exact Option.noConfusion hpre
      have hds : (runAll cmakeExe debug w ds).2 = none := by
        simp only [runAll, hd] at hpre
        exact hpre
      rcases ih hds with ⟨ih1, ih2⟩
      constructor
      · simp only [List.cons_append, runAll, List.append_eq, hd, ih1]
      · simp only [List.cons_append, runAll, List.append_eq, hd, ih2]

theorem runAll_aborts_on_failure_witness :
    runAll "cmake" false ⟨fun a => if a = ["make", "-j", "cudf"] then 2 else 0, fun _ => "out", ""⟩
        [ExtDescriptor.std "x", ExtDescriptor.cmake "cudf" "cpp", ExtDescriptor.cmake "rmm" "cpp"]
      = runAll "cmake" false ⟨fun a => if a = ["make", "-j", "cudf"] then 2 else 0, fun _ => "out", ""⟩
        [ExtDescriptor.std "x", ExtDescriptor.cmake "cudf" "cpp"] :=
  (runAll_aborts_on_failure "cmake" false
    ⟨fun a => if a = ["make", "-j", "cudf"] then 2 else 0, fun _ => "out", ""⟩
    [ExtDescriptor.std "x"] (ExtDescriptor.cmake "cudf" "cpp") [ExtDescriptor.cmake "rmm" "cpp"]
    (by decide) (by decide)).1

/-! ### C8: the release version strips every leading `v` -/

theorem releaseVersion_one_v_cex :
    releaseVersion (some "vv0.10.0") = "0.10.0"
      ∧ ¬ releaseVersion (some "vv0.10.0") = stripOneLeadingV "vv0.10.0" := by
  constructor <;> decide

/-- C8 (amended): the release version is the tag with every leading `'v'`
character removed (Python `lstrip('v')`), not just one. -/
theorem releaseVersion_strips_all_leading_v (t : String) :
    releaseVersion (some t) = stripAllLeadingV t := by
  unfold releaseVersion pyLstrip stripAllLeadingV
  simp only [Option.getD_some]
  congr 1
  induction t.data with
  | nil => rfl
  | cons c cs ih =>
      by_cases h : c = 'v'
      · simp [List.dropWhile, h, ih]
      · simp [List.dropWhile, h]

/-! ### C4: the build-directory naming helper -/

theorem isPre_slash_append_dot (d t : String)
    (hd : List.isPrefixOf ['/'] d.data = false) :
    List.isPrefixOf ['/'] (d ++ ("." ++ t)).data = false := by
  rw [String.data_append, String.data_append]
  cases hdd : d.data with
  | nil => simp [List.isPrefixOf]
  | cons c cs =>
      rw [hdd] at hd
      simp [List.isPrefixOf] at hd ⊢
      exact hd

/-- C4 counterexample: for a logical name beginning with the path
separator, `os.path.join` treats the formatted name as absolute and
drops the `build` component, so the result is not
`build/{logicalName}.{platformTag}-{major}.{minor}`. -/
theorem distutils_dir_name_cex :
    distutils_dir_name "/a" "p" (3, 7) = "/a.p-3.7"
      ∧ ¬ distutils_dir_name "/a" "p" (3, 7)
          = "build/" ++ ("/a" ++ "." ++ "p" ++ "-" ++ toString (3 : Nat) ++ "."
              ++ toString (7 : Nat)) := by
  constructor <;> decide

/-- C4 (amended): `distutils_dir_name` is a pure, deterministic, total
function of its three inputs, and whenever the logical name does not
begin with the path separator its value is exactly
`build/{logicalName}.{platformTag}-{major}.{minor}`. -/
theorem distutils_dir_name_format (d p : String) (a b : Nat)
    (hd : List.isPrefixOf ['/'] d.data = false) :
    distutils_dir_name d p (a, b)
      = "build/" ++ (d ++ "." ++ p ++ "-" ++ toString a ++ "." ++ toString b) := by
  have hassoc : d ++ "." ++ p ++ "-" ++ toString a ++ "." ++ toString b
      = d ++ ("." ++ (p ++ ("-" ++ (toString a ++ ("." ++ toString b))))) := by
    simp [String.append_assoc]
  have hfmt := isPre_slash_append_dot d
    (p ++ ("-" ++ (toString a ++ ("." ++ toString b)))) hd
  unfold distutils_dir_name pyJoin
  rw [hassoc]
  rw [if_neg (by simp only [hfmt]; decide), if_neg (by decide), if_neg (by decide)]
  have hb : ("build" : String) ++ "/" = "build/" := by decide
  rw [hb]

theorem distutils_dir_name_format_witness :
    distutils_dir_name "rmm" "linux-x86_64" (3, 7) = "build/rmm.linux-x86_64-3.7"
      ∧ ("build/" : String) ++ ("rmm" ++ "." ++ "linux-x86_64" ++ "-"
          ++ toString (3 : Nat) ++ "." ++ toString (7 : Nat)) = "build/rmm.linux-x86_64-3.7" :=
  ⟨by
    rw [distutils_dir_name_format "rmm" "linux-x86_64" 3 7 (by decide)]
    decide,
   by decide⟩

/-! ### C5: the exact shape of the generator arguments -/

/-- C5 counterexample: `CMAKE_COMMON_VARIABLES` is split on single space
characters only, so a tab does not separate tokens; the whitespace-split
reading gives a different list. -/
theorem cmakeArgs_whitespace_cex :
    cmakeArgs "cmake" "cpp" "out" false "-DA=1\t-DB=2"
        = ["cmake", "cpp", "-DCMAKE_LIBRARY_OUTPUT_DIRECTORY=out",
           "-DCMAKE_BUILD_TYPE=Release", "-DA=1\t-DB=2"]
      ∧ specArgsWhitespace "cmake" "cpp" "out" false "-DA=1\t-DB=2"
        = ["cmake", "cpp", "-DCMAKE_LIBRARY_OUTPUT_DIRECTORY=out",
           "-DCMAKE_BUILD_TYPE=Release", "-DA=1", "-DB=2"]
      ∧ ¬ cmakeArgs "cmake" "cpp" "out" false "-DA=1\t-DB=2"
          = specArgsWhitespace "cmake" "cpp" "out" false "-DA=1\t-DB=2" := by
  refine ⟨by decide, by decide, by decide⟩

theorem splitOnPred_all_not (p : Char → Bool) :
    ∀ (l : List Char) (seg : List Char), seg ∈ splitOnPred p l →
      seg.all (fun c => !(p c)) = true := by
  intro l
  induction l with
  | nil =>
      intro seg h
      simp [splitOnPred] at h
      rw [h]
      rfl
  | cons c cs ih =>
      intro seg h
      cases hc : p c with
      | true =>
          simp only [splitOnPred, hc, if_true] at h
          rcases List.mem_cons.mp h with h | h
          · rw [h]; rfl
          · exact ih seg h
      | false =>
          simp only [splitOnPred, hc, Bool.false_eq_true, if_false] at h
          cases hsp : splitOnPred p cs with
          | nil =>
              rw [hsp] at h
              rcases List.mem_singleton.mp h with h
              rw [h]
              simp [hc]
          | cons t ts =>
              rw [hsp] at h
              rcases List.mem_cons.mp h with h | h
              · have ht : t.all (fun c => !(p c)) = true :=
                  ih t (by rw [hsp]; exact List.mem_cons_self t ts)
                rw [h]
                simp [hc, List.all_cons] at ht ⊢
                exact ht
              · exact ih seg (by rw [hsp]; exact List.mem_cons_of_mem t h)

/-- C5 (amended): `cmake_args` is the four fixed elements followed by the
tokens of `CMAKE_COMMON_VARIABLES` split at every single space character
(not arbitrary whitespace) with empty tokens dropped; every kept token is
non-empty and contains no space. -/
theorem cmakeArgs_space_split (exe src out : String) (debug : Bool) (cv : String) :
    (cmakeArgs exe src out debug cv).take 4
        = [exe, src, "-DCMAKE_LIBRARY_OUTPUT_DIRECTORY=" ++ out,
           "-DCMAKE_BUILD_TYPE=" ++ (if debug then "Debug" else "Release")]
      ∧ (cmakeArgs exe src out debug cv).drop 4 = spaceTokens cv
      ∧ ∀ tok ∈ spaceTokens cv, tok ≠ ""
          ∧ tok.data.all (fun c => c ≠ ' ') = true := by
  refine ⟨by simp [cmakeArgs], by simp [cmakeArgs, spaceTokens, pySplitSpace], ?_⟩
  intro tok htok
  rcases List.mem_filter.mp htok with ⟨hmem, hne⟩
  refine ⟨by simpa using hne, ?_⟩
  rcases List.mem_map.mp hmem with ⟨seg, hseg, hmk⟩
  have hall := splitOnPred_all_not (fun c => c = ' ') cv.data seg hseg
  rw [← hmk]
  simpa [decide_not] using hall

theorem cmakeArgs_space_split_witness :
    (cmakeArgs "cmake" "cpp" "out" true "-DX=1  -DY=2").take 4
        = ["cmake", "cpp", "-DCMAKE_LIBRARY_OUTPUT_DIRECTORY=" ++ "out",
           "-DCMAKE_BUILD_TYPE=" ++ (if true then "Debug" else "Release")]
      ∧ (cmakeArgs "cmake" "cpp" "out" true "-DX=1  -DY=2").drop 4
        = spaceTokens "-DX=1  -DY=2"
      ∧ ("-DX=1" ≠ "" ∧ "-DX=1".data.all (fun c => c ≠ ' ') = true) :=
  ⟨(cmakeArgs_space_split "cmake" "cpp" "out" true "-DX=1  -DY=2").1,
   (cmakeArgs_space_split "cmake" "cpp" "out" true "-DX=1  -DY=2").2.1,
   (cmakeArgs_space_split "cmake" "cpp" "out" true "-DX=1  -DY=2").2.2 "-DX=1" (by decide)⟩

/-! ### C10: the install filter is exactly the `.h` suffix -/

/-- C10: a walked file is copied if and only if its name ends in `.h`
(and then exactly to `install_dir/path.replace(header, '')` with its
content); the walk descends into every subdirectory whatever its name;
and names ending in `.hpp`, `.hxx` or `.cuh` never match while `.h`
does. -/
theorem header_filter_exactly_dot_h :
    (∀ (fuel : Nat) (installDir root : String) (tree : List Entry) (p t c : String),
        ((p, t, c) ∈ headerCopies fuel installDir root tree ↔
          ∃ n, (p, n, c) ∈ osWalkFiles fuel root tree ∧ pyEndsWith n ".h" = true
            ∧ t = pyJoin installDir (pyReplaceEmpty p root)))
      ∧ (∀ (fuel : Nat) (top d : String) (cs es : List Entry)
            (x : String × String × String),
          (x ∈ osWalkFiles (fuel + 1) top (Entry.dir d cs :: es) ↔
            x ∈ osWalkFiles fuel (pyJoin top d) cs ∨ x ∈ osWalkFiles fuel top es))
      ∧ pyEndsWith "a.h" ".h" = true ∧ pyEndsWith "a.hpp" ".h" = false
      ∧ pyEndsWith "a.hxx" ".h" = false ∧ pyEndsWith "a.cuh" ".h" = false := by
  refine ⟨?_, ?_, by decide, by decide, by decide, by decide⟩
  · intro fuel installDir root tree p t c
    unfold headerCopies
    rw [List.mem_filterMap]
    constructor
    · rintro ⟨⟨p', n, c'⟩, hmem, heq⟩
      simp only at heq
      by_cases hn : pyEndsWith n ".h" = true
      · rw [if_pos hn] at heq
        injection heq with h2
        obtain ⟨hp, ht, hc⟩ : p' = p ∧ pyJoin installDir (pyReplaceEmpty p' root) = t
            ∧ c' = c := by
          simpa [Prod.ext_iff] using h2
        subst hp
        subst hc
        exact ⟨n, hmem, hn, ht.symm⟩
      · rw [if_neg hn] at heq
        cases heq
    · rintro ⟨n, hmem, hn, ht⟩
      refine ⟨(p, n, c), hmem, ?_⟩
      simp [hn, ht]
  · intro fuel top d cs es x
    simp only [osWalkFiles, filesOf, walkDirsFuel, List.mem_append]
    tauto

theorem header_filter_exactly_dot_h_witness :
    (("r/x.h", "inst/x.h", "A") ∈
        headerCopies 5 "inst" "r/" [Entry.file "x.h" "A", Entry.file "y.hpp" "B"] ↔
      ∃ n, ("r/x.h", n, "A") ∈ osWalkFiles 5 "r/" [Entry.file "x.h" "A", Entry.file "y.hpp" "B"]
        ∧ pyEndsWith n ".h" = true ∧ "inst/x.h" = pyJoin "inst" (pyReplaceEmpty "r/x.h" "r/"))
      ∧ (("r/sub/z.h", "z.h", "C") ∈ osWalkFiles 6 "r/" [Entry.dir "sub" [Entry.file "z.h" "C"]] ↔
          ("r/sub/z.h", "z.h", "C") ∈ osWalkFiles 5 (pyJoin "r/" "sub") [Entry.file "z.h" "C"]
            ∨ ("r/sub/z.h", "z.h", "C") ∈ osWalkFiles 5 "r/" []) :=
  ⟨header_filter_exactly_dot_h.1 5 "inst" "r/" [Entry.file "x.h" "A", Entry.file "y.hpp" "B"]
      "r/x.h" "inst/x.h" "A",
   header_filter_exactly_dot_h.2.1 5 "r/" "sub" [Entry.file "z.h" "C"] []
      ("r/sub/z.h", "z.h", "C")⟩

/-! ### C6: colliding relative paths -/

/-- C6 counterexample: two roots that both install `x.h` produce TWO
entries for `inst/x.h` in `outfiles` (one `copy_file` per root appends
one record), not exactly one; the content at the path is indeed the
later root's. -/
theorem installRun_two_roots_record_count_cex :
    ((installRun 5 "inst" [("r1/", [Entry.file "x.h" "A"]), ("r2/", [Entry.file "x.h" "B"])]).outfiles.filter
        (fun s => s = "inst/x.h")).length = 2
      ∧ ¬ ((installRun 5 "inst" [("r1/", [Entry.file "x.h" "A"]), ("r2/", [Entry.file "x.h" "B"])]).outfiles.filter
        (fun s => s = "inst/x.h")).length = 1
      ∧ finalContent (installRun 5 "inst" [("r1/", [Entry.file "x.h" "A"]), ("r2/", [Entry.file "x.h" "B"])])
          "inst/x.h" = some "B" := by
  refine ⟨by decide, by decide, by decide⟩

/-- C6 (amended): when two header roots each produce exactly one copy to
the same destination `t`, the later-registered root's copy is performed
last, so the content at `t` after the run is the later root's, while
`outfiles` records the destination once per copy — twice, not once. -/
theorem installRun_same_relpath_last_root_wins (fuel : Nat) (installDir : String)
    (h1 h2 : String × List Entry) (t p1 c1 p2 c2 : String)
    (hf1 : (headerCopies fuel installDir h1.1 h1.2).filter (fun x => x.2.1 = t)
        = [(p1, t, c1)])
    (hf2 : (headerCopies fuel installDir h2.1 h2.2).filter (fun x => x.2.1 = t)
        = [(p2, t, c2)]) :
    finalContent (installRun fuel installDir [h1, h2]) t = some c2
      ∧ ((installRun fuel installDir [h1, h2]).outfiles.filter
          (fun s => s = t)).length = 2 := by
  have hcopies : (installRun fuel installDir [h1, h2]).copies
      = headerCopies fuel installDir h1.1 h1.2 ++ headerCopies fuel installDir h2.1 h2.2 := by
    simp [installRun]
  have houts : (installRun fuel installDir [h1, h2]).outfiles
      = ((installRun fuel installDir [h1, h2]).copies).map (fun c => c.2.1) := by
    simp [installRun]
  constructor
  · unfold finalContent
    rw [hcopies, List.reverse_append]
    have hrev2 : (headerCopies fuel installDir h2.1 h2.2).reverse.filter
        (fun x => x.2.1 = t) = [(p2, t, c2)] := by
      rw [List.filter_reverse, hf2]
      rfl
    have hfind := find?_eq_of_filter_eq (fun x : String × String × String => x.2.1 = t) _ _ hrev2
    rw [find?_append_of_find?_eq _ hfind _]
    rfl
  · rw [houts, hcopies]
    rw [filter_length_map_fst (fun c : String × String × String => c.2.1) _ t]
    rw [List.filter_append]
    simp only [hf1, hf2]
    rfl

theorem installRun_same_relpath_last_root_wins_witness :
    finalContent (installRun 5 "inst" [("r1/", [Entry.file "x.h" "A"]), ("r2/", [Entry.file "x.h" "B"])])
        "inst/x.h" = some "B"
      ∧ ((installRun 5 "inst" [("r1/", [Entry.file "x.h" "A"]), ("r2/", [Entry.file "x.h" "B"])]).outfiles.filter
          (fun s => s = "inst/x.h")).length = 2 :=
  installRun_same_relpath_last_root_wins 5 "inst"
    ("r1/", [Entry.file "x.h" "A"]) ("r2/", [Entry.file "x.h" "B"])
    "inst/x.h" "r1/x.h" "A" "r2/x.h" "B" (by decide) (by decide)

/-! ### C1: where a header file really lands -/

/-- C1 counterexample: `path.replace(header, '')` deletes every
occurrence of the root string, not just the leading one, so a `.h` file
whose path repeats the root string is not installed at
`installRoot/<relativePath>` for the prefix-stripped `relativePath` —
the directory structure under the root is not preserved for it. -/
theorem installRun_replace_breaks_structure_cex :
    ("cpp/include/a/cpp/include/b.h", "b.h", "X")
        ∈ osWalkFiles 10 "cpp/include/"
            [Entry.dir "a" [Entry.dir "cpp" [Entry.dir "include" [Entry.file "b.h" "X"]]]]
      ∧ pyEndsWith "b.h" ".h" = true
      ∧ relSpec "cpp/include/a/cpp/include/b.h" "cpp/include/" = "a/cpp/include/b.h"
      ∧ finalContent
          (installRun 10 "inst"
            [("cpp/include/", [Entry.dir "a" [Entry.dir "cpp" [Entry.dir "include" [Entry.file "b.h" "X"]]]])])
          (pyJoin "inst" "a/cpp/include/b.h") = none
      ∧ finalContent
          (installRun 10 "inst"
            [("cpp/include/", [Entry.dir "a" [Entry.dir "cpp" [Entry.dir "include" [Entry.file "b.h" "X"]]]])])
          "inst/a/b.h" = some "X" := by
  refine ⟨by decide, by decide, by decide, by decide, by decide⟩

/-- C1 (amended): every `.h` file under a declared root is copied
byte-identical to `installRoot/<relativePath>` where `relativePath` is
the path with every occurrence of the root string deleted; when the root
string occurs in the path only as its leading prefix this equals the
root-relative path (never absolute for a root ending in the separator),
and, absent a colliding copy to the same destination, that is the file
found there after the run. -/
theorem installRun_copies_to_stripped_path (fuel : Nat) (installDir : String)
    (headers : List (String × List Entry)) (root : String) (tree : List Entry)
    (p n c : String)
    (hmem : (root, tree) ∈ headers)
    (hwalk : (p, n, c) ∈ osWalkFiles fuel root tree)
    (hh : pyEndsWith n ".h" = true)
    (hstrip : pyReplaceEmpty p root = relSpec p root)
    (huniq : ((installRun fuel installDir headers).copies.filter
        (fun x => x.2.1 = pyJoin installDir (relSpec p root))).length ≤ 1) :
    finalContent (installRun fuel installDir headers) (pyJoin installDir (relSpec p root))
      = some c := by
  set tgt := pyJoin installDir (relSpec p root) with htgt
  have hne : headers.isEmpty = false := by
    cases headers with
    | nil => cases hmem
    | cons a l => rfl
  have hcopies : (installRun fuel installDir headers).copies
      = (headers.map (fun h => headerCopies fuel installDir h.1 h.2)).flatten := by
    simp [installRun, hne]
  have hmemc : (p, tgt, c) ∈ (installRun fuel installDir headers).copies := by
    rw [hcopies, List.mem_flatten]
    refine ⟨headerCopies fuel installDir root tree, ?_, ?_⟩
    · exact List.mem_map.mpr ⟨(root, tree), hmem, rfl⟩
    · unfold headerCopies
      rw [List.mem_filterMap]
      exact ⟨(p, n, c), hwalk, by simp [hh, hstrip, htgt]⟩
  have hmemf : (p, tgt, c) ∈ (installRun fuel installDir headers).copies.filter
      (fun x => x.2.1 = tgt) :=
    List.mem_filter.mpr ⟨hmemc, by simp⟩
  have hfl : (installRun fuel installDir headers).copies.filter (fun x => x.2.1 = tgt)
      = [(p, tgt, c)] :=
    eq_singleton_of_mem_of_length_le hmemf huniq
  unfold finalContent
  have hrev : ((installRun fuel installDir headers).copies).reverse.filter
      (fun x => x.2.1 = tgt) = [(p, tgt, c)] := by
    rw [List.filter_reverse, hfl]
    rfl
  rw [find?_eq_of_filter_eq _ _ _ hrev]
  rfl

theorem installRun_copies_to_stripped_path_witness :
    finalContent (installRun 5 "inst" [("r/", [Entry.file "x.h" "A"])])
        (pyJoin "inst" (relSpec "r/x.h" "r/")) = some "A" :=
  installRun_copies_to_stripped_path 5 "inst" [("r/", [Entry.file "x.h" "A"])] "r/"
    [Entry.file "x.h" "A"] "r/x.h" "x.h" "A"
    (List.mem_singleton.mpr rfl) (by decide) (by decide) (by decide) (by decide)

end Setup
